import Mathlib

/-!
Formal model of the core logic of the geoviz repository: the name
normalizer, the CBSA expansion and the geo join engine from
src/preprocess.py and src/choropleth.py, and the palette table and
color mapper logic from src/params.py and src/choropleth.py.

Modelling conventions.  Python strings are modelled as Lean strings;
the Python primitives used by the source (split on a single space
character, lower, join) are defined below on lists of characters and
proved against.  Pandas data frames are modelled as lists of rows,
where a row is an association list from column name to cell value; the
pandas merge used by the source preserves the order of the left frame
keys for inner and left joins, which the model reproduces.  The bokeh
palette library and the crosswalk csv file are external collaborators
and are passed as explicit parameters.  Numeric cell values are exact
integers together with a separate nan value whose order comparisons
are always false, matching the IEEE comparison semantics that drive
the Python builtins min and max on data containing missing entries.
-/

deriving instance DecidableEq for Except

set_option synthInstance.maxSize 1024

namespace Geoviz

/-! ## Python string primitives -/

/-- Model of the Python expression name.split(" ") on a list of
characters: every single space is a separator, consecutive spaces
produce empty fields, and the empty string yields one empty field. -/
def pySplitSpace : List Char → List (List Char)
  | [] => [[]]
  | c :: cs =>
    if c = ' ' then [] :: pySplitSpace cs
    else
      match pySplitSpace cs with
      | w :: ws => (c :: w) :: ws
      | [] => [[c]]

/-- Model of the Python expression " ".join(words) on lists of
characters. -/
def pyJoinSpace : List (List Char) → List Char
  | [] => []
  | [w] => w
  | w :: ws => w ++ ' ' :: pyJoinSpace ws

/-! ## params.py -/

/-- LSAD, the legal statistical area definition suffix list from
src/params.py. -/
def LSAD : List String :=
  ["county", "parish", "city", "borough", "cty&bor", "muny", "municipio", "municipality"]

/-- The palette library of the external bokeh collaborator: a palette
name and a color count resolve to an ordered list of hex codes, or to
nothing when the library does not define that palette.  In bokeh the
natural order of a palette runs from the dark end to the light end. -/
abbrev PaletteLib := String → Nat → Option (List String)

/-- get_palette_colors from src/params.py: look the named palette of
the requested size up in the bokeh library (the source does this with
eval on the concatenated name), copy it and reverse its order.  A name
the library does not define is a NameError in the source, modelled as
none. -/
def get_palette_colors (lib : PaletteLib) (palette_label : String) (ncolors : Nat) :
    Option (List String) :=
  (lib palette_label ncolors).map List.reverse

/-- palette_dict from src/params.py: the ranked palette names of each
scale family. -/
def palette_dict (ptype : String) : Option (List String) :=
  if ptype = "sequential" then some ["RdPu", "YlGnBu", "YlOrRd"]
  else if ptype = "sequential_single" then some ["Blues", "Greens", "Purples"]
  else if ptype = "divergent" then some ["BrBG", "RdBu", "PiYG"]
  else if ptype = "categorical" then some ["Dark2_", "Set1_", "Set3_"]
  else none

/-- max_n from src/params.py: the largest supported color count of
each scale family. -/
def max_n (ptype : String) : Option Nat :=
  if ptype = "sequential" then some 9
  else if ptype = "sequential_single" then some 9
  else if ptype = "divergent" then some 11
  else if ptype = "categorical" then some 8
  else none

/-- A key of the inner PALETTES dictionaries: the source stores every
palette both under its name string and under its one-based rank
integer. -/
inductive PKey where
  | label (s : String)
  | rank (r : Nat)
deriving DecidableEq

/-- Resolution of a PALETTES key to the palette name it denotes: a
name key must belong to the family, a rank key is a one-based index
into the family list. -/
def keyLabel (ptype : String) (key : PKey) : Option String :=
  match palette_dict ptype with
  | none => none
  | some labels =>
    match key with
    | PKey.label s => if s ∈ labels then some s else none
    | PKey.rank r => if 1 ≤ r ∧ r ≤ labels.length then labels[r - 1]? else none

/-- The PALETTES table of src/params.py as built by the module level
loop, before the custom color patch: for a family, a key of that
family and a color count n with 3 ≤ n ≤ max_n, the stored palette is
the reversed library palette of the resolved name and size. -/
def PALETTES_pre (lib : PaletteLib) (ptype : String) (key : PKey) (n : Nat) :
    Option (List String) :=
  match keyLabel ptype key with
  | none => none
  | some label =>
    match max_n ptype with
    | none => none
    | some m => if 3 ≤ n ∧ n ≤ m then get_palette_colors lib label n else none

/-- Model of the Python statement lst[-1] = c: replace the final
element.  The source only applies it to stored palettes, which are
never empty. -/
def setLast (l : List String) (c : String) : List String :=
  match l with
  | [] => []
  | _ => l.dropLast ++ [c]

/-- The PALETTES table of src/params.py after the custom color
patch.  The patch loop writes the hex code 0a3959 into the final
entry of every color count variant stored under the rank key 2 of the
sequential family; because the building loop stores one list object
per name and size under both the name key and the rank key, the same
patched lists are visible under the name key YlGnBu, so the model
patches both keys. -/
def PALETTES (lib : PaletteLib) (ptype : String) (key : PKey) (n : Nat) :
    Option (List String) :=
  if ptype = "sequential" ∧ (key = PKey.rank 2 ∨ key = PKey.label "YlGnBu") then
    (PALETTES_pre lib ptype key n).map (fun p => setLast p "#0a3959")
  else PALETTES_pre lib ptype key n

/-! ## strip_name, both copies -/

namespace Preprocess

/-- strip_name from src/preprocess.py: resolve the default suffix
list, split the name on single spaces, and when the final field
lower-cased belongs to the suffix list drop it and rejoin the
remaining fields with single spaces, else return the name unchanged.
Lower-casing is modelled on the ascii range, which covers the suffix
list. -/
def strip_name (name : String) (remove : Option (List String) := none) : String :=
  let rem := remove.getD LSAD
  let words := pySplitSpace name.toList
  if (words.getLastD []).map Char.toLower ∈ rem.map String.toList then
    String.mk (pyJoinSpace words.dropLast)
  else name

end Preprocess

namespace Choropleth

/-- strip_name from src/choropleth.py: identical body, but the default
suffix list is bound directly in the signature instead of being
resolved from None inside the body. -/
def strip_name (name : String) (remove : List String := LSAD) : String :=
  let words := pySplitSpace name.toList
  if (words.getLastD []).map Char.toLower ∈ remove.map String.toList then
    String.mk (pyJoinSpace words.dropLast)
  else name

end Choropleth

/-! ## Tables -/

/-- A cell value of a user supplied data frame: a string, an integer,
or a missing value. -/
inductive Val where
  | s (x : String)
  | i (n : Int)
  | null
deriving DecidableEq

/-- A data frame row: an association list from column name to cell
value. -/
abbrev Row := List (String × Val)

/-- Reading one cell of a row by column name. -/
def getCol (r : Row) (c : String) : Option Val :=
  (r.find? (fun p => p.1 == c)).map (fun p => p.2)

/-- Writing one cell of a row by column name; the source only assigns
to columns that are already present. -/
def setCol (r : Row) (c : String) (v : Val) : Row :=
  r.map (fun p => if p.1 == c then (p.1, v) else p)

/-- One row of the boundary table loaded by shape_geojson: the
geometry and the identifier fields the join engine can resolve to. -/
structure ShapeRow where
  geometry : String
  name : String
  fips : String
  fips_state : String
  iso_3166_2 : String
deriving DecidableEq

/-- One row of the crosswalk table data/external/omb_msa_2017.csv read
by cbsa_to_fips, with the columns its docstring names. -/
structure CrossRow where
  cbsa : String
  cbsa_name : String
  county_name : String
  fips : String
deriving DecidableEq

/-! ## CBSA expansion, both copies -/

namespace Preprocess

/-- cbsa_to_fips from src/preprocess.py: the pandas inner merge of the
crosswalk (left frame, key column cbsa) with the attribute table
(right frame, key column cbsa_var).  An inner merge keeps one output
row per matching pair and preserves the order of the left frame keys,
with the matching right rows in their own order.  The crosswalk file
read is modelled as the explicit parameter omb.  A merged row is
modelled as the contributing pair; tables without the key column are
outside the modelled scope (pandas raises a KeyError there). -/
def cbsa_to_fips (omb : List CrossRow) (msa_df : List Row) (cbsa_var : String) :
    List (CrossRow × Row) :=
  omb.flatMap (fun o =>
    (msa_df.filter (fun r => decide (getCol r cbsa_var = some (Val.s o.cbsa)))).map
      (fun r => (o, r)))

end Preprocess

namespace Choropleth

/-- cbsa_to_fips from src/choropleth.py: unlike the preprocess.py
copy, the merge is a left merge with the crosswalk as the left frame,
so every crosswalk row produces at least one output row; a crosswalk
row with no matching attribute row is kept with missing attribute
cells, modelled as none on the right component. -/
def cbsa_to_fips (omb : List CrossRow) (df : List Row) (cbsa_name : String) :
    List (CrossRow × Option Row) :=
  omb.flatMap (fun o =>
    match df.filter (fun r => decide (getCol r cbsa_name = some (Val.s o.cbsa))) with
    | [] => [(o, none)]
    | ms => ms.map (fun r => (o, some r)))

end Choropleth

/-! ## The join key lookup and the merge -/

/-- A KeyError raised by the nested dictionary lookup in
merge_to_geodf: either the outer access with the geography level
fails, or the inner access with the identifier type fails.  The outer
failure is the unknown geography level condition; the inner failure
covers both an unknown identifier type and a known but unsupported
combination such as county with abbrev, which the source does not
distinguish further. -/
inductive KeyErr where
  | level (k : String)
  | idType (k : String)
deriving DecidableEq

/-- The fixed lookup table of merge_to_geodf that resolves the
boundary side join field from the geography level and the identifier
type, written in both source files as a nested dictionary literal
indexed twice. -/
def resolve_join_key (geolvl geoid_type : String) : Except KeyErr String :=
  if geolvl = "state" then
    if geoid_type = "fips" then Except.ok "fips_state"
    else if geoid_type = "name" then Except.ok "name"
    else if geoid_type = "abbrev" then Except.ok "iso_3166_2"
    else Except.error (KeyErr.idType geoid_type)
  else if geolvl = "county" then
    if geoid_type = "fips" then Except.ok "fips"
    else if geoid_type = "name" then Except.ok "name"
    else Except.error (KeyErr.idType geoid_type)
  else Except.error (KeyErr.level geolvl)

/-- Reading the resolved join field out of a boundary row. -/
def shapeField (sh : ShapeRow) (f : String) : Option String :=
  if f == "fips" then some sh.fips
  else if f == "name" then some sh.name
  else if f == "fips_state" then some sh.fips_state
  else if f == "iso_3166_2" then some sh.iso_3166_2
  else none

/-- Failures of merge_to_geodf: a KeyError of the join key lookup, a
missing identifier column, or applying strip_name to a cell that is
not a string. -/
inductive MergeErr where
  | keyErr (e : KeyErr)
  | missingColumn (c : String)
  | typeErr
deriving DecidableEq

/-- Model of the Python statement that rewrites the identifier column
in place through apply(strip_name): every row has its identifier cell,
which must be a string, replaced by its stripped form. -/
def stripColumn : List Row → String → Except MergeErr (List Row)
  | [], _ => Except.ok []
  | r :: rs, c =>
    match getCol r c with
    | none => Except.error (MergeErr.missingColumn c)
    | some (Val.s x) =>
      match stripColumn rs c with
      | Except.ok rest => Except.ok (setCol r c (Val.s (Preprocess.strip_name x)) :: rest)
      | Except.error e => Except.error e
    | some _ => Except.error MergeErr.typeErr

/-- Reading a whole column, failing like the source does when a row
lacks it. -/
def columnE : List Row → String → Except MergeErr (List Val)
  | [], _ => Except.ok []
  | r :: rs, c =>
    match getCol r c with
    | none => Except.error (MergeErr.missingColumn c)
    | some v =>
      match columnE rs c with
      | Except.ok vs => Except.ok (v :: vs)
      | Except.error e => Except.error e

/-- The columns a crosswalk row contributes to a merged frame. -/
def crossCols (o : CrossRow) : List (String × Val) :=
  [("cbsa", Val.s o.cbsa), ("cbsa_name", Val.s o.cbsa_name),
   ("county_name", Val.s o.county_name), ("fips", Val.s o.fips)]

/-- Flattening one output pair of cbsa_to_fips into a plain row, with
the documented suffix rule: a crosswalk column whose name collides
with a caller column is suffixed with _omb, the caller columns are
kept as they are. -/
def mergedRow (o : CrossRow) (r : Row) : Row :=
  ((crossCols o).map (fun p =>
    if (getCol r p.1).isSome then (p.1 ++ "_omb", p.2) else p)) ++ r

/-- The pandas inner merge of the boundary frame (left) with the
attribute frame (right) on the resolved boundary field against the
identifier column: one output row per matching pair, in left frame
key order.  A merged row is modelled as the contributing pair; the
identifier column of the merged frame is read from the right
component, matching the suffix rule of the source, which renames only
the boundary side on a collision. -/
def innerMergeShapes (shape_df : List ShapeRow) (tbl : List Row) (field gvar : String) :
    List (ShapeRow × Row) :=
  shape_df.flatMap (fun sh =>
    (tbl.filter (fun r => decide ((shapeField sh field).map Val.s = getCol r gvar))).map
      (fun r => (sh, r)))

/-- merge_to_geodf from src/preprocess.py.  The returned triple
carries the merged frame, the no_shape diagnostic set the source
prints (the identifier values of the attribute table that are absent
from the merged frame), and the state of the caller attribute table
after the call: the source rewrites its identifier column in place
when the identifier type is name, rebinds a local variable without
touching the caller table when it is cbsa, and leaves it alone
otherwise.  The copy in src/choropleth.py differs only in the suffix
label of colliding boundary columns and in exposing the merge mode as
a parameter that defaults to the inner merge modelled here. -/
def merge_to_geodf (omb : List CrossRow) (shape_df : List ShapeRow) (file_or_df : List Row)
    (geoid_var geoid_type : String) (geolvl : String := "county") :
    Except MergeErr (List (ShapeRow × Row) × Finset Val × List Row) :=
  match (if geoid_type = "name" then
           match stripColumn file_or_df geoid_var with
           | Except.error e => Except.error e
           | Except.ok mutated => Except.ok (mutated, geoid_var, "name", mutated)
         else if geoid_type = "cbsa" then
           Except.ok ((Preprocess.cbsa_to_fips omb file_or_df geoid_var).map
             (fun p => mergedRow p.1 p.2), "fips", "fips", file_or_df)
         else Except.ok (file_or_df, geoid_var, geoid_type, file_or_df) :
           Except MergeErr (List Row × String × String × List Row)) with
  | Except.error e => Except.error e
  | Except.ok (tbl, gvar2, gtype2, post) =>
    match resolve_join_key geolvl gtype2 with
    | Except.error e => Except.error (MergeErr.keyErr e)
    | Except.ok field =>
      match columnE tbl gvar2 with
      | Except.error e => Except.error e
      | Except.ok keys =>
        let geo_df := innerMergeShapes shape_df tbl field gvar2
        let joined_keys := geo_df.filterMap (fun p => getCol p.2 gvar2)
        Except.ok (geo_df, keys.toFinset \ joined_keys.toFinset, post)

/-! ## The color mapper -/

/-- A numeric value of the plotted column: an exact number, or the
floating point nan that pandas uses for a missing numeric entry. -/
inductive PyNum where
  | num (v : Int)
  | nan
deriving DecidableEq

/-- The Python comparison x < y on such values: every comparison
against nan is false. -/
def pyLt : PyNum → PyNum → Bool
  | PyNum.num a, PyNum.num b => a < b
  | _, _ => false

/-- The loop of the Python builtin min: keep the current value unless
the next one compares strictly below it. -/
def pyMinFold (m : PyNum) : List PyNum → PyNum
  | [] => m
  | x :: xs => pyMinFold (if pyLt x m then x else m) xs

/-- The Python builtin min over a sequence, a ValueError on the empty
sequence. -/
def pyMin : List PyNum → Option PyNum
  | [] => none
  | x :: xs => some (pyMinFold x xs)

/-- The loop of the Python builtin max: keep the current value unless
the next one compares strictly above it. -/
def pyMaxFold (m : PyNum) : List PyNum → PyNum
  | [] => m
  | x :: xs => pyMaxFold (if pyLt m x then x else m) xs

/-- The Python builtin max over a sequence, a ValueError on the empty
sequence. -/
def pyMax : List PyNum → Option PyNum
  | [] => none
  | x :: xs => some (pyMaxFold x xs)

/-- The entries of the DEFAULTFORMAT dictionary of src/params.py that
make_color_mapper reads, with their default values; cbar_min and
cbar_max are absent by default and reach the code only through a
caller override, which the source reads with dict.get. -/
structure Formatting where
  lin_or_log : String := "lin"
  ncolors : Nat := 7
  palette : PKey := PKey.rank 1
  cbar_min : Option PyNum := none
  cbar_max : Option PyNum := none
deriving DecidableEq

/-- The bokeh color mapper object make_color_mapper returns: the
selected mapper class records only which kind it is, the palette and
the domain bounds.  The bokeh constructors validate property types
but place no constraint on the sign of the bounds. -/
structure ColorMapper where
  kind : String
  palette : List String
  low : PyNum
  high : PyNum
deriving DecidableEq

/-- Failures of make_color_mapper: the ValueError of min or max on an
empty sequence, a palette that neither the table nor the library
fallback resolves, and the KeyError of an unknown mapper kind
string. -/
inductive MapErr where
  | valueError
  | paletteError
  | keyErrorMapper (k : String)
deriving DecidableEq

/-- The palette resolution step of make_color_mapper: the table
lookup COLORS with the scale kind, the palette selector and the color
count, and on its KeyError the fallback call to get_palette_colors,
which only a name selector can satisfy.  The module imports the table
under the name COLORS from src/params.py, where it is defined under
the name PALETTES. -/
def palette_resolve (lib : PaletteLib) (y_type : String) (key : PKey) (n : Nat) :
    Option (List String) :=
  match PALETTES lib y_type key n with
  | some p => some p
  | none =>
    match key with
    | PKey.label l => get_palette_colors lib l n
    | PKey.rank _ => none

/-- make_color_mapper from src/choropleth.py: compute both bounds
with the Python builtins min and max (each defaulted away by an
explicit caller override, which always wins), resolve the palette,
select the linear or logarithmic mapper class by dictionary lookup on
the lin_or_log string, and construct the mapper.  No validation of
the bounds happens anywhere on this path. -/
def make_color_mapper (lib : PaletteLib) (y_values : List PyNum) (y_type : String)
    (formatting : Formatting) : Except MapErr ColorMapper :=
  match pyMin y_values, pyMax y_values with
  | some m, some M =>
    let c_min := formatting.cbar_min.getD m
    let c_max := formatting.cbar_max.getD M
    match palette_resolve lib y_type formatting.palette formatting.ncolors with
    | none => Except.error MapErr.paletteError
    | some pal =>
      if formatting.lin_or_log = "lin" ∨ formatting.lin_or_log = "log" then
        Except.ok ⟨formatting.lin_or_log, pal, c_min, c_max⟩
      else Except.error (MapErr.keyErrorMapper formatting.lin_or_log)
  | _, _ => Except.error MapErr.valueError

/-! ## Statements of spec wording, kept apart from the source model

The next definitions are not translations of the source: each one
formalises the wording of one specification sentence so that the
sentence can be compared with the behaviour of the source model. -/

/-- Python whitespace characters, as used by str.split with no
separator argument. -/
def isPyWs (c : Char) : Bool :=
  c = ' ' || c = '\t' || c = '\n' || c = '\r' || c = '\x0b' || c = '\x0c'

/-- Tokenisation on runs of whitespace with no empty tokens, the
reading of whitespace separated tokens in the specification of the
name normalizer. -/
def wsTokensAux : List Char → List Char → List (List Char)
  | [], acc => if acc.isEmpty then [] else [acc.reverse]
  | c :: cs, acc =>
    if isPyWs c then
      if acc.isEmpty then wsTokensAux cs [] else acc.reverse :: wsTokensAux cs []
    else wsTokensAux cs (c :: acc)

/-- Tokenisation on runs of whitespace, top level entry. -/
def wsTokens (l : List Char) : List (List Char) := wsTokensAux l []

/-- Formalisation of the specification wording for the name
normalizer, not of the source: split the name into whitespace
separated tokens, and when the last token lower-cased is in the
suffix set drop it and rejoin the remaining tokens with single
spaces, else return the name unchanged. -/
def normalize_name_claimed (name : String) (remove : List String) : String :=
  let toks := wsTokens name.toList
  if (toks.getLastD []).map Char.toLower ∈ remove.map String.toList then
    String.mk (pyJoinSpace toks.dropLast)
  else name

/-- The numeric content of a value, none for the missing entry. -/
def toIntV : PyNum → Option Int
  | PyNum.num a => some a
  | PyNum.nan => none

/-- Formalisation of the specification wording for the scale bounds,
not of the source: the minimum of the values with missing entries
ignored. -/
def minIgnoringNulls (l : List PyNum) : Option Int :=
  (l.filterMap toIntV).min?

/-! ## Concrete instances -/

/-- A fragment of the external bokeh palette library, with the dark
to light order bokeh uses; the hex codes are the ColorBrewer data
bokeh ships.  Only the palettes the concrete statements below touch
are populated. -/
def bokehLib : PaletteLib := fun label n =>
  if label = "RdPu" ∧ n = 3 then some ["#c51b8a", "#fa9fb5", "#fde0dd"]
  else if label = "YlGnBu" ∧ n = 3 then some ["#2c7fb8", "#7fcdbb", "#edf8b1"]
  else if label = "BrBG" ∧ n = 3 then some ["#d8b365", "#f5f5f5", "#5ab4ac"]
  else none

/-- Boundary rows of the end to end scenario: three counties with the
FIPS codes 01001, 01003 and 01005. -/
def scShape1 : ShapeRow := ⟨"g1", "Autauga", "01001", "01", "US-AL"⟩

/-- Second boundary row of the end to end scenario. -/
def scShape2 : ShapeRow := ⟨"g2", "Baldwin", "01003", "01", "US-AL"⟩

/-- Third boundary row of the end to end scenario. -/
def scShape3 : ShapeRow := ⟨"g3", "Barbour", "01005", "01", "US-AL"⟩

/-- The boundary table of the end to end scenario. -/
def scShapes : List ShapeRow := [scShape1, scShape2, scShape3]

/-- First attribute row of the end to end scenario. -/
def scAttr1 : Row := [("fips", Val.s "01001"), ("v", Val.i 10)]

/-- Second attribute row of the end to end scenario. -/
def scAttr2 : Row := [("fips", Val.s "01999"), ("v", Val.i 20)]

/-- Third attribute row of the end to end scenario. -/
def scAttr3 : Row := [("fips", Val.s "01005"), ("v", Val.i 30)]

/-- The attribute table of the end to end scenario: the identifier
set 01001, 01005, 01999 and the value column 10, 20, 30. -/
def scAttrs : List Row := [scAttr1, scAttr2, scAttr3]

/-- A two row crosswalk: two CBSA codes with one member county
each. -/
def cwTwo : List CrossRow :=
  [⟨"10180", "Abilene, TX", "Callahan County", "48059"⟩,
   ⟨"10420", "Akron, OH", "Portage County", "39133"⟩]

/-- An attribute table holding exactly one CBSA code, the first one of
the two row crosswalk. -/
def cbsaAttrs : List Row := [[("code", Val.s "10180"), ("v", Val.i 1)]]

/-! # Theorems

Helper lemmas come first, the claim theorems follow. -/

/-! ## The split and join primitives -/

/-- Splitting never yields an empty field list: the empty string
yields one empty field. -/
theorem pySplitSpace_ne_nil (l : List Char) : pySplitSpace l ≠ [] := by
  cases l with
  | nil => simp [pySplitSpace]
  | cons c cs =>
    unfold pySplitSpace
    split
    · simp
    · split <;> simp

/-- Splitting distributes over a space character. -/
theorem pySplitSpace_append_space (a b : List Char) :
    pySplitSpace (a ++ ' ' :: b) = pySplitSpace a ++ pySplitSpace b := by
  induction a with
  | nil =>
    show pySplitSpace (' ' :: b) = pySplitSpace [] ++ pySplitSpace b
    simp only [pySplitSpace, if_pos rfl]
    simp
  | cons c cs ih =>
    show pySplitSpace (c :: (cs ++ ' ' :: b)) = pySplitSpace (c :: cs) ++ pySplitSpace b
    by_cases h : c = ' '
    · simp only [pySplitSpace, if_pos h, ih]
      simp
    · simp only [pySplitSpace, if_neg h, ih]
      rcases hcs : pySplitSpace cs with _ | ⟨w, ws⟩
      · exact absurd hcs (pySplitSpace_ne_nil cs)
      · simp [hcs]

/-- A string without spaces splits into the single field it is. -/
theorem pySplitSpace_no_space (b : List Char) (h : ∀ c ∈ b, c ≠ ' ') :
    pySplitSpace b = [b] := by
  induction b with
  | nil => rfl
  | cons c cs ih =>
    unfold pySplitSpace
    rw [if_neg (h c (List.mem_cons_self ..)),
      ih (fun d hd => h d (List.mem_cons_of_mem _ hd))]

/-- Joining with single spaces undoes splitting on single spaces. -/
theorem pyJoin_pySplit (l : List Char) : pyJoinSpace (pySplitSpace l) = l := by
  induction l with
  | nil => rfl
  | cons c cs ih =>
    simp only [pySplitSpace]
    rcases hcs : pySplitSpace cs with _ | ⟨w, ws⟩
    · exact absurd hcs (pySplitSpace_ne_nil cs)
    · rw [hcs] at ih
      by_cases h : c = ' '
      · rw [if_pos h, h]
        cases ws with
        | nil => simp [pyJoinSpace] at ih ⊢; exact ih
        | cons w2 ws2 => simp [pyJoinSpace] at ih ⊢; exact ih
      · rw [if_neg h]
        cases ws with
        | nil => simp [pyJoinSpace] at ih ⊢; exact ih
        | cons w2 ws2 =>
          simp [pyJoinSpace] at ih ⊢
          exact ih

/-- Unfolding lemma for the preprocess.py strip_name with an explicit
suffix list. -/
theorem strip_name_eq (name : String) (rem : List String) :
    Preprocess.strip_name name (some rem) =
      if ((pySplitSpace name.toList).getLastD []).map Char.toLower ∈ rem.map String.toList
      then String.mk (pyJoinSpace (pySplitSpace name.toList).dropLast)
      else name := rfl

/-! ## Claims C2 and C10, the name normalizer -/

/-- C2, counterexample.  The claim reads strip_name as operating on
whitespace separated tokens and rejoining with single spaces.  On the
name Fulton(space)(space)County the last whitespace separated token
County is in the suffix set, so the claim predicts the output Fulton;
the source splits on every single space, keeps the empty field between
the two spaces and rejoins it, producing Fulton followed by a trailing
space. -/
theorem strip_name_whitespace_counterexample :
    normalize_name_claimed "Fulton  County" LSAD = "Fulton" ∧
    Preprocess.strip_name "Fulton  County" = "Fulton " ∧
    ("Fulton " : String) ≠ "Fulton" := by
  refine ⟨by decide, by decide, by decide⟩

/-- C2, amended.  strip_name splits on single space characters, in
the manner of the Python call split with an explicit space separator:
when the final space separated field, lower-cased, is in the suffix
set, the name up to and excluding the final space character is
returned (so consecutive spaces survive in that prefix); otherwise the
name is returned unchanged; a name containing no space at all that
matches a suffix reduces to the empty string. -/
theorem strip_name_space_split_spec :
    (∀ (pre suf : List Char) (rem : List String), (∀ c ∈ suf, c ≠ ' ') →
       (suf.map Char.toLower ∈ rem.map String.toList →
          Preprocess.strip_name (String.mk (pre ++ ' ' :: suf)) (some rem) = String.mk pre) ∧
       (suf.map Char.toLower ∉ rem.map String.toList →
          Preprocess.strip_name (String.mk (pre ++ ' ' :: suf)) (some rem)
            = String.mk (pre ++ ' ' :: suf))) ∧
    (∀ (name : List Char) (rem : List String), (∀ c ∈ name, c ≠ ' ') →
       (name.map Char.toLower ∈ rem.map String.toList →
          Preprocess.strip_name (String.mk name) (some rem) = "") ∧
       (name.map Char.toLower ∉ rem.map String.toList →
          Preprocess.strip_name (String.mk name) (some rem) = String.mk name)) := by
  constructor
  · intro pre suf rem hsuf
    have hsplit : pySplitSpace (String.mk (pre ++ ' ' :: suf)).toList
        = pySplitSpace pre ++ [suf] := by
      show pySplitSpace (pre ++ ' ' :: suf) = _
      rw [pySplitSpace_append_space, pySplitSpace_no_space suf hsuf]
    constructor
    · intro hmem
      rw [strip_name_eq, hsplit, List.getLastD_concat, List.dropLast_concat,
        if_pos hmem, pyJoin_pySplit]
    · intro hmem
      rw [strip_name_eq, hsplit, List.getLastD_concat, if_neg hmem]
  · intro name rem hname
    have hsplit : pySplitSpace (String.mk name).toList = [name] := by
      show pySplitSpace name = [name]
      exact pySplitSpace_no_space name hname
    constructor
    · intro hmem
      rw [strip_name_eq, hsplit]
      simp only [List.getLastD_cons, List.getLastD_nil, List.dropLast_single]
      rw [if_pos hmem]
      rfl
    · intro hmem
      rw [strip_name_eq, hsplit]
      simp only [List.getLastD_cons, List.getLastD_nil, List.dropLast_single]
      rw [if_neg hmem]

/-- C2, witness for the amended statement at a concrete input. -/
theorem strip_name_space_split_spec_witness :
    Preprocess.strip_name (String.mk ("Cook".toList ++ ' ' :: "County".toList)) (some LSAD)
      = String.mk "Cook".toList :=
  (strip_name_space_split_spec.1 "Cook".toList "County".toList LSAD (by decide)).1 (by decide)

/-- C10.  The two copies of the name normalizer agree on every name
when each is called with its default suffix list: both default to the
LSAD list of src/params.py and the bodies coincide. -/
theorem strip_name_copies_equal :
    ∀ name : String, Choropleth.strip_name name = Preprocess.strip_name name :=
  fun _ => rfl

/-! ## The merge engine -/

/-- A successful whole column read lists exactly the identifier cells
of the table. -/
theorem columnE_ok_mem {tbl : List Row} {c : String} {vs : List Val}
    (h : columnE tbl c = Except.ok vs) (v : Val) :
    v ∈ vs ↔ ∃ r ∈ tbl, getCol r c = some v := by
  induction tbl generalizing vs with
  | nil =>
    simp only [columnE] at h
    cases h
    simp
  | cons r rs ih =>
    simp only [columnE] at h
    cases hg : getCol r c with
    | none => rw [hg] at h; cases h
    | some w =>
      rw [hg] at h
      cases hc : columnE rs c with
      | error e => rw [hc] at h; cases h
      | ok ws =>
        rw [hc] at h
        cases h
        constructor
        · intro hv
          rcases List.mem_cons.mp hv with rfl | hv2
          · exact ⟨r, List.mem_cons_self r rs, hg⟩
          · obtain ⟨r2, hr2, hgr⟩ := (ih hc).mp hv2
            exact ⟨r2, List.mem_cons_of_mem _ hr2, hgr⟩
        · rintro ⟨r2, hr2, hgr⟩
          rcases List.mem_cons.mp hr2 with rfl | hr2b
          · rw [hg] at hgr
            exact List.mem_cons.mpr (Or.inl (Option.some_inj.mp hgr).symm)
          · exact List.mem_cons.mpr (Or.inr ((ih hc).mpr ⟨r2, hr2b, hgr⟩))

/-- Unfolding lemma for merge_to_geodf on an identifier type that is
neither name nor cbsa. -/
theorem merge_to_geodf_other_eq (omb : List CrossRow) (shapes : List ShapeRow)
    (attrs : List Row) (gvar gtype glvl : String)
    (h1 : gtype ≠ "name") (h2 : gtype ≠ "cbsa") :
    merge_to_geodf omb shapes attrs gvar gtype glvl =
      match resolve_join_key glvl gtype with
      | Except.error e => Except.error (MergeErr.keyErr e)
      | Except.ok field =>
        match columnE attrs gvar with
        | Except.error e => Except.error e
        | Except.ok keys =>
          Except.ok (innerMergeShapes shapes attrs field gvar,
            keys.toFinset \ ((innerMergeShapes shapes attrs field gvar).filterMap
              (fun p => getCol p.2 gvar)).toFinset, attrs) := by
  unfold merge_to_geodf
  rw [if_neg h1, if_neg h2]

/-- Unfolding lemma for merge_to_geodf on the identifier type
name. -/
theorem merge_to_geodf_name_eq (omb : List CrossRow) (shapes : List ShapeRow)
    (attrs : List Row) (gvar glvl : String) :
    merge_to_geodf omb shapes attrs gvar "name" glvl =
      match stripColumn attrs gvar with
      | Except.error e => Except.error e
      | Except.ok mutated =>
        match resolve_join_key glvl "name" with
        | Except.error e => Except.error (MergeErr.keyErr e)
        | Except.ok field =>
          match columnE mutated gvar with
          | Except.error e => Except.error e
          | Except.ok keys =>
            Except.ok (innerMergeShapes shapes mutated field gvar,
              keys.toFinset \ ((innerMergeShapes shapes mutated field gvar).filterMap
                (fun p => getCol p.2 gvar)).toFinset, mutated) := by
  unfold merge_to_geodf
  rw [if_pos rfl]
  cases stripColumn attrs gvar <;> rfl

/-- Unfolding lemma for merge_to_geodf on the identifier type
cbsa: the caller table is expanded into a local table, and the
returned post state is the caller table itself. -/
theorem merge_to_geodf_cbsa_eq (omb : List CrossRow) (shapes : List ShapeRow)
    (attrs : List Row) (gvar glvl : String) :
    merge_to_geodf omb shapes attrs gvar "cbsa" glvl =
      (match resolve_join_key glvl "fips" with
       | Except.error e => Except.error (MergeErr.keyErr e)
       | Except.ok field =>
         match columnE ((Preprocess.cbsa_to_fips omb attrs gvar).map
             (fun p => mergedRow p.1 p.2)) "fips" with
         | Except.error e => Except.error e
         | Except.ok keys =>
           Except.ok (innerMergeShapes shapes
               ((Preprocess.cbsa_to_fips omb attrs gvar).map (fun p => mergedRow p.1 p.2))
               field "fips",
             keys.toFinset \ ((innerMergeShapes shapes
               ((Preprocess.cbsa_to_fips omb attrs gvar).map (fun p => mergedRow p.1 p.2))
               field "fips").filterMap
                 (fun p => getCol p.2 "fips")).toFinset, attrs)) := rfl

/-! ## Claim C1, the join and its unmatched identifier diagnostic -/

/-- C1.  For the county level fips join the diagnostic set the source
computes and prints (the identifier values of the attribute table that
are absent from the merged frame) holds exactly the identifier values
of the attribute table for which no boundary row carries that fips
code; and on the end to end scenario of three boundary counties 01001,
01003, 01005 and attribute rows for 01001, 01999, 01005 with values
10, 20, 30, the inner join returns exactly the two rows pairing 01001
with 10 and 01005 with 30, reports the unmatched set holding 01999,
and succeeds rather than failing. -/
theorem merge_unmatched_set_spec :
    (∀ (shapes : List ShapeRow) (attrs : List Row) (geo : List (ShapeRow × Row))
       (unm : Finset Val) (post : List Row),
       merge_to_geodf [] shapes attrs "fips" "fips" "county" = Except.ok (geo, unm, post) →
       ∀ v : Val, v ∈ unm ↔
         (∃ r ∈ attrs, getCol r "fips" = some v) ∧ ∀ sh ∈ shapes, Val.s sh.fips ≠ v) ∧
    merge_to_geodf [] scShapes scAttrs "fips" "fips" "county" =
      Except.ok ([(scShape1, scAttr1), (scShape3, scAttr3)], {Val.s "01999"}, scAttrs) := by
  constructor
  · intro shapes attrs geo unm post h v
    rw [merge_to_geodf_other_eq [] shapes attrs "fips" "fips" "county"
        (by decide) (by decide)] at h
    have hres : resolve_join_key "county" "fips" = Except.ok "fips" := rfl
    rw [hres] at h
    cases hc : columnE attrs "fips" with
    | error e => rw [hc] at h; cases h
    | ok keys =>
      rw [hc] at h
      injection h with h3
      have hunm : unm =
          keys.toFinset \ ((innerMergeShapes shapes attrs "fips" "fips").filterMap
            (fun p => getCol p.2 "fips")).toFinset :=
        (congrArg (fun t => t.2.1) h3).symm
      have hjoin : ∀ w : Val,
          w ∈ (innerMergeShapes shapes attrs "fips" "fips").filterMap
              (fun p => getCol p.2 "fips")
          ↔ ∃ sh ∈ shapes, ∃ r ∈ attrs,
              getCol r "fips" = some (Val.s sh.fips) ∧ getCol r "fips" = some w := by
        intro w
        simp only [innerMergeShapes, List.mem_filterMap, List.mem_flatMap, List.mem_map,
          List.mem_filter, decide_eq_true_eq]
        constructor
        · rintro ⟨p, ⟨sh, hsh, ⟨r, ⟨hr, hmatch⟩, rfl⟩⟩, hw⟩
          exact ⟨sh, hsh, r, hr, by simpa [shapeField] using hmatch.symm, hw⟩
        · rintro ⟨sh, hsh, r, hr, hmatch, hw⟩
          exact ⟨(sh, r), ⟨sh, hsh, r, ⟨hr, by simpa [shapeField] using hmatch.symm⟩, rfl⟩, hw⟩
      rw [hunm, Finset.mem_sdiff, List.mem_toFinset, List.mem_toFinset,
        columnE_ok_mem hc v, hjoin v]
      constructor
      · rintro ⟨hkeys, hnot⟩
        refine ⟨hkeys, ?_⟩
        intro sh hsh heq
        obtain ⟨r, hr, hgr⟩ := hkeys
        exact hnot ⟨sh, hsh, r, hr, by rw [hgr, heq], hgr⟩
      · rintro ⟨hkeys, hall⟩
        refine ⟨hkeys, ?_⟩
        rintro ⟨sh, hsh, r, hr, h1, h2⟩
        rw [h1] at h2
        exact hall sh hsh (Option.some_inj.mp h2)
  · decide

/-- C1, witness at the scenario input and the unmatched value
01999. -/
theorem merge_unmatched_set_spec_witness :
    Val.s "01999" ∈ ({Val.s "01999"} : Finset Val) ↔
      (∃ r ∈ scAttrs, getCol r "fips" = some (Val.s "01999")) ∧
      ∀ sh ∈ scShapes, Val.s sh.fips ≠ Val.s "01999" :=
  merge_unmatched_set_spec.1 scShapes scAttrs
    [(scShape1, scAttr1), (scShape3, scAttr3)] {Val.s "01999"} scAttrs
    (by decide) (Val.s "01999")

/-! ## Claim C8, mutation of the caller table -/

/-- C8, counterexample.  Joining with identifier type name overwrites
the identifier column of the caller attribute table in place: after
the call the caller table holds the stripped name Cook instead of the
supplied Cook County, so the join is not pure in its attribute table
argument. -/
theorem merge_mutation_counterexample :
    merge_to_geodf [] [] [[("name", Val.s "Cook County")]] "name" "name" "county"
      = Except.ok ([], {Val.s "Cook"}, [[("name", Val.s "Cook")]]) ∧
    ([[("name", Val.s "Cook")]] : List Row) ≠ [[("name", Val.s "Cook County")]] := by
  refine ⟨by decide, by decide⟩

/-- C8, amended.  The boundary table and the crosswalk are only read,
and for every identifier type other than name the caller attribute
table is unchanged after the call, the cbsa expansion included, which
rebinds a local variable without touching the caller table; with
identifier type name, however, the identifier column of the caller
table is overwritten in place with the stripped names. -/
theorem merge_mutation_spec :
    (∀ (omb : List CrossRow) (shapes : List ShapeRow) (df : List Row)
       (gvar gtype glvl : String)
       (res : List (ShapeRow × Row) × Finset Val × List Row),
       gtype ≠ "name" →
       merge_to_geodf omb shapes df gvar gtype glvl = Except.ok res → res.2.2 = df) ∧
    (∀ (omb : List CrossRow) (shapes : List ShapeRow) (df stripped : List Row)
       (gvar glvl : String) (res : List (ShapeRow × Row) × Finset Val × List Row),
       stripColumn df gvar = Except.ok stripped →
       merge_to_geodf omb shapes df gvar "name" glvl = Except.ok res →
       res.2.2 = stripped) := by
  constructor
  · intro omb shapes df gvar gtype glvl res hne h
    by_cases hc : gtype = "cbsa"
    · subst hc
      rw [merge_to_geodf_cbsa_eq] at h
      cases hrk : resolve_join_key glvl "fips" with
      | error e => rw [hrk] at h; cases h
      | ok field =>
        rw [hrk] at h
        cases hcol : columnE ((Preprocess.cbsa_to_fips omb df gvar).map
            (fun p => mergedRow p.1 p.2)) "fips" with
        | error e => rw [hcol] at h; cases h
        | ok keys =>
          rw [hcol] at h
          injection h with h2
          rw [← h2]
    · rw [merge_to_geodf_other_eq omb shapes df gvar gtype glvl hne hc] at h
      cases hrk : resolve_join_key glvl gtype with
      | error e => rw [hrk] at h; cases h
      | ok field =>
        rw [hrk] at h
        cases hcol : columnE df gvar with
        | error e => rw [hcol] at h; cases h
        | ok keys =>
          rw [hcol] at h
          injection h with h2
          rw [← h2]
  · intro omb shapes df stripped gvar glvl res hstrip h
    have heq : merge_to_geodf omb shapes df gvar "name" glvl =
        match resolve_join_key glvl "name" with
        | Except.error e => Except.error (MergeErr.keyErr e)
        | Except.ok field =>
          match columnE stripped gvar with
          | Except.error e => Except.error e
          | Except.ok keys =>
            Except.ok (innerMergeShapes shapes stripped field gvar,
              keys.toFinset \ ((innerMergeShapes shapes stripped field gvar).filterMap
                (fun p => getCol p.2 gvar)).toFinset, stripped) := by
      rw [merge_to_geodf_name_eq, hstrip]
    rw [heq] at h
    cases hrk : resolve_join_key glvl "name" with
    | error e => rw [hrk] at h; cases h
    | ok field =>
      rw [hrk] at h
      cases hcol : columnE stripped gvar with
      | error e => rw [hcol] at h; cases h
      | ok keys =>
        rw [hcol] at h
        injection h with h2
        rw [← h2]

/-- C8, witness for the amended statement: a fips join leaves the
caller table untouched. -/
theorem merge_mutation_spec_witness :
    (([(scShape1, scAttr1), (scShape3, scAttr3)], {Val.s "01999"},
        scAttrs) : List (ShapeRow × Row) × Finset Val × List Row).2.2 = scAttrs :=
  merge_mutation_spec.1 [] scShapes scAttrs "fips" "fips" "county"
    ([(scShape1, scAttr1), (scShape3, scAttr3)], {Val.s "01999"}, scAttrs)
    (by decide) (by decide)

/-! ## Claim C4, the join key lookup -/

/-- C4.  The join key resolution is the fixed five entry lookup the
claim lists; the pair county and abbrev fails at the inner lookup, an
unknown geography level fails at the outer lookup carrying the level,
an unknown identifier type fails at the inner lookup carrying the
type, and nothing outside the five entries succeeds. -/
theorem resolve_join_key_table_spec :
    resolve_join_key "state" "fips" = Except.ok "fips_state" ∧
    resolve_join_key "state" "name" = Except.ok "name" ∧
    resolve_join_key "state" "abbrev" = Except.ok "iso_3166_2" ∧
    resolve_join_key "county" "fips" = Except.ok "fips" ∧
    resolve_join_key "county" "name" = Except.ok "name" ∧
    resolve_join_key "county" "abbrev" = Except.error (KeyErr.idType "abbrev") ∧
    (∀ lvl ty, lvl ≠ "state" → lvl ≠ "county" →
      resolve_join_key lvl ty = Except.error (KeyErr.level lvl)) ∧
    (∀ ty, ty ≠ "fips" → ty ≠ "name" → ty ≠ "abbrev" →
      resolve_join_key "state" ty = Except.error (KeyErr.idType ty) ∧
      resolve_join_key "county" ty = Except.error (KeyErr.idType ty)) ∧
    (∀ lvl ty f, resolve_join_key lvl ty = Except.ok f →
      (lvl = "state" ∨ lvl = "county") ∧ (ty = "fips" ∨ ty = "name" ∨ ty = "abbrev") ∧
      ¬(lvl = "county" ∧ ty = "abbrev")) := by
  refine ⟨by decide, by decide, by decide, by decide, by decide, by decide, ?_, ?_, ?_⟩
  · intro lvl ty h1 h2
    simp [resolve_join_key, h1, h2]
  · intro ty h1 h2 h3
    constructor <;> simp [resolve_join_key, h1, h2, h3]
  · intro lvl ty f h
    unfold resolve_join_key at h
    by_cases hl1 : lvl = "state"
    · subst hl1
      rw [if_pos rfl] at h
      by_cases ht1 : ty = "fips"
      · exact ⟨Or.inl rfl, Or.inl ht1, by simp⟩
      · rw [if_neg ht1] at h
        by_cases ht2 : ty = "name"
        · exact ⟨Or.inl rfl, Or.inr (Or.inl ht2), by simp⟩
        · rw [if_neg ht2] at h
          by_cases ht3 : ty = "abbrev"
          · exact ⟨Or.inl rfl, Or.inr (Or.inr ht3), by simp⟩
          · rw [if_neg ht3] at h; cases h
    · rw [if_neg hl1] at h
      by_cases hl2 : lvl = "county"
      · subst hl2
        rw [if_pos rfl] at h
        by_cases ht1 : ty = "fips"
        · exact ⟨Or.inr rfl, Or.inl ht1, by simp [ht1]⟩
        · rw [if_neg ht1] at h
          by_cases ht2 : ty = "name"
          · exact ⟨Or.inr rfl, Or.inr (Or.inl ht2), by simp [ht2]⟩
          · rw [if_neg ht2] at h; cases h
      · rw [if_neg hl2] at h; cases h

/-- C4, witness: the general failure clauses applied at concrete
inputs. -/
theorem resolve_join_key_table_spec_witness :
    resolve_join_key "tract" "fips" = Except.error (KeyErr.level "tract") ∧
    resolve_join_key "county" "iso" = Except.error (KeyErr.idType "iso") :=
  ⟨resolve_join_key_table_spec.2.2.2.2.2.2.1 "tract" "fips" (by decide) (by decide),
   (resolve_join_key_table_spec.2.2.2.2.2.2.2.1 "iso"
     (by decide) (by decide) (by decide)).2⟩

/-! ## Claim C3, the CBSA expansion -/

/-- Filter length as a sum of indicator values. -/
theorem length_filter_eq_sum {α : Type} (p : α → Bool) (l : List α) :
    (l.filter p).length = (l.map (fun x => if p x then 1 else 0)).sum := by
  induction l with
  | nil => rfl
  | cons x xs ih =>
    rw [List.filter_cons, List.map_cons, List.sum_cons]
    by_cases h : p x
    · rw [if_pos h, if_pos h, List.length_cons, ih]
      omega
    · rw [if_neg h, if_neg h, ih]
      omega

/-- Summing a pointwise sum of two counts splits into two sums. -/
theorem sum_map_add {α : Type} (l : List α) (f g : α → Nat) :
    (l.map (fun x => f x + g x)).sum = (l.map f).sum + (l.map g).sum := by
  induction l with
  | nil => rfl
  | cons x xs ih =>
    simp only [List.map_cons, List.sum_cons, ih]
    omega

/-- Counting matching pairs from the left factor equals counting them
from the right factor. -/
theorem sum_filter_comm {α β : Type} (la : List α) (lb : List β) (p : α → β → Bool) :
    (la.map (fun a => (lb.filter (p a)).length)).sum
      = (lb.map (fun b => (la.filter (fun a => p a b)).length)).sum := by
  induction la with
  | nil => simp
  | cons a as ih =>
    simp only [List.map_cons, List.sum_cons, ih]
    rw [length_filter_eq_sum, ← sum_map_add]
    apply congrArg List.sum
    apply List.map_congr_left
    intro b hb
    rw [List.filter_cons]
    by_cases hpb : p a b
    · simp only [hpb, if_true, List.length_cons]
      omega
    · simp [hpb]

/-- C3, counterexample.  The choropleth.py copy of the expansion left
joins with the crosswalk as the left frame: with a two code crosswalk
and an attribute table holding only the first code, it produces two
output rows, one of them for a code the caller never supplied, while
the claim predicts exactly one row, the matched pair count. -/
theorem cbsa_left_join_counterexample :
    (Choropleth.cbsa_to_fips cwTwo cbsaAttrs "code").length = 2 ∧
    (cbsaAttrs.map (fun r =>
      (cwTwo.filter (fun o => decide (getCol r "code" = some (Val.s o.cbsa)))).length)).sum
      = 1 ∧
    (2 : Nat) ≠ 1 := by
  refine ⟨by decide, by decide, by decide⟩

/-- C3, amended.  The preprocess.py expansion is the inner join the
claim describes: its output holds exactly one row per matching pair of
a crosswalk row and an attribute row on the CBSA code, each output row
carries the whole original attribute row, codes absent from the
crosswalk contribute no rows, and the output row count is the sum over
the attribute rows of the number of crosswalk counties mapped to each
code.  The choropleth.py copy instead left joins with the crosswalk as
the left frame, so every crosswalk row yields at least one output row
whether or not its code was supplied. -/
theorem cbsa_expand_count_spec :
    (∀ (omb : List CrossRow) (msa : List Row) (c : String) (o : CrossRow) (r : Row),
       (o, r) ∈ Preprocess.cbsa_to_fips omb msa c ↔
         o ∈ omb ∧ r ∈ msa ∧ getCol r c = some (Val.s o.cbsa)) ∧
    (∀ (omb : List CrossRow) (msa : List Row) (c : String),
       (Preprocess.cbsa_to_fips omb msa c).length
         = (msa.map (fun r =>
             (omb.filter (fun o => decide (getCol r c = some (Val.s o.cbsa)))).length)).sum) ∧
    (∀ (omb : List CrossRow) (df : List Row) (c : String),
       omb.length ≤ (Choropleth.cbsa_to_fips omb df c).length) := by
  refine ⟨?_, ?_, ?_⟩
  · intro omb msa c o r
    simp only [Preprocess.cbsa_to_fips, List.mem_flatMap, List.mem_map, List.mem_filter,
      decide_eq_true_eq, Prod.mk.injEq]
    constructor
    · rintro ⟨o2, ho2, r2, ⟨hr2, hg⟩, rfl, rfl⟩
      exact ⟨ho2, hr2, hg⟩
    · rintro ⟨ho, hr, hg⟩
      exact ⟨o, ho, r, ⟨hr, hg⟩, rfl, rfl⟩
  · intro omb msa c
    unfold Preprocess.cbsa_to_fips
    rw [List.length_flatMap]
    simp only [Function.comp_def, List.length_map]
    exact sum_filter_comm omb msa (fun o r => decide (getCol r c = some (Val.s o.cbsa)))
  · intro omb df c
    unfold Choropleth.cbsa_to_fips
    induction omb with
    | nil => simp
    | cons o os ih =>
      rw [List.flatMap_cons, List.length_append, List.length_cons]
      have h1 : 1 ≤ (match df.filter (fun r => decide (getCol r c = some (Val.s o.cbsa))) with
          | [] => [(o, (none : Option Row))]
          | ms => ms.map (fun r => (o, some r))).length := by
        cases df.filter (fun r => decide (getCol r c = some (Val.s o.cbsa))) <;> simp
      omega

/-! ## The Python builtins min and max -/

/-- The min loop on a nan free list computes the fold of the exact
minimum. -/
theorem pyMinFold_num (a : Int) (qs : List Int) :
    pyMinFold (PyNum.num a) (qs.map PyNum.num) = PyNum.num (qs.foldl min a) := by
  induction qs generalizing a with
  | nil => rfl
  | cons q qs ih =>
    simp only [List.map_cons, pyMinFold, List.foldl_cons]
    have harm : (if pyLt (PyNum.num q) (PyNum.num a) = true then PyNum.num q else PyNum.num a)
        = PyNum.num (min a q) := by
      simp only [pyLt, decide_eq_true_eq]
      by_cases h : q < a
      · rw [if_pos h, min_eq_right h.le]
      · rw [if_neg h, min_eq_left (le_of_not_lt h)]
    rw [harm]
    exact ih (min a q)

/-- The max loop on a nan free list computes the fold of the exact
maximum. -/
theorem pyMaxFold_num (a : Int) (qs : List Int) :
    pyMaxFold (PyNum.num a) (qs.map PyNum.num) = PyNum.num (qs.foldl max a) := by
  induction qs generalizing a with
  | nil => rfl
  | cons q qs ih =>
    simp only [List.map_cons, pyMaxFold, List.foldl_cons]
    have harm : (if pyLt (PyNum.num a) (PyNum.num q) = true then PyNum.num q else PyNum.num a)
        = PyNum.num (max a q) := by
      simp only [pyLt, decide_eq_true_eq]
      by_cases h : a < q
      · rw [if_pos h, max_eq_right h.le]
      · rw [if_neg h, max_eq_left (le_of_not_lt h)]
    rw [harm]
    exact ih (max a q)

/-- The fold of min is a lower bound of the seed and every element. -/
theorem foldl_min_le (a : Int) (qs : List Int) : ∀ q ∈ a :: qs, qs.foldl min a ≤ q := by
  induction qs generalizing a with
  | nil =>
    intro q hq
    rw [List.mem_singleton.mp hq]
    exact le_refl _
  | cons x xs ih =>
    intro q hq
    rw [List.foldl_cons]
    rcases List.mem_cons.mp hq with rfl | hq2
    · exact le_trans (ih (min q x) _ (List.mem_cons_self ..)) (min_le_left ..)
    · rcases List.mem_cons.mp hq2 with rfl | hq3
      · exact le_trans (ih (min a q) _ (List.mem_cons_self ..)) (min_le_right ..)
      · exact ih (min a x) q (List.mem_cons_of_mem _ hq3)

/-- The fold of min is the seed or one of the elements. -/
theorem foldl_min_mem (a : Int) (qs : List Int) : qs.foldl min a ∈ a :: qs := by
  induction qs generalizing a with
  | nil => simp
  | cons x xs ih =>
    rw [List.foldl_cons]
    rcases List.mem_cons.mp (ih (min a x)) with h | h
    · rcases min_choice a x with h2 | h2 <;> rw [h, h2]
      · exact List.mem_cons_self ..
      · exact List.mem_cons.mpr (Or.inr (List.mem_cons_self ..))
    · exact List.mem_cons.mpr (Or.inr (List.mem_cons.mpr (Or.inr h)))

/-- The fold of max is an upper bound of the seed and every element. -/
theorem foldl_max_le (a : Int) (qs : List Int) : ∀ q ∈ a :: qs, q ≤ qs.foldl max a := by
  induction qs generalizing a with
  | nil =>
    intro q hq
    rw [List.mem_singleton.mp hq]
    exact le_refl _
  | cons x xs ih =>
    intro q hq
    rw [List.foldl_cons]
    rcases List.mem_cons.mp hq with rfl | hq2
    · exact le_trans (le_max_left ..) (ih (max q x) _ (List.mem_cons_self ..))
    · rcases List.mem_cons.mp hq2 with rfl | hq3
      · exact le_trans (le_max_right ..) (ih (max a q) _ (List.mem_cons_self ..))
      · exact ih (max a x) q (List.mem_cons_of_mem _ hq3)

/-- The fold of max is the seed or one of the elements. -/
theorem foldl_max_mem (a : Int) (qs : List Int) : qs.foldl max a ∈ a :: qs := by
  induction qs generalizing a with
  | nil => simp
  | cons x xs ih =>
    rw [List.foldl_cons]
    rcases List.mem_cons.mp (ih (max a x)) with h | h
    · rcases max_choice a x with h2 | h2 <;> rw [h, h2]
      · exact List.mem_cons_self ..
      · exact List.mem_cons.mpr (Or.inr (List.mem_cons_self ..))
    · exact List.mem_cons.mpr (Or.inr (List.mem_cons.mpr (Or.inr h)))

/-- Inversion of a successful make_color_mapper call: the bounds are
the caller overrides defaulted to the builtin min and max of the
values, the palette resolved, and the kind string was lin or log. -/
theorem make_color_mapper_ok_inv {lib : PaletteLib} {vals : List PyNum} {y_type : String}
    {fmt : Formatting} {mp : ColorMapper}
    (h : make_color_mapper lib vals y_type fmt = Except.ok mp) :
    ∃ m M pal, pyMin vals = some m ∧ pyMax vals = some M ∧
      palette_resolve lib y_type fmt.palette fmt.ncolors = some pal ∧
      mp = ⟨fmt.lin_or_log, pal, fmt.cbar_min.getD m, fmt.cbar_max.getD M⟩ := by
  unfold make_color_mapper at h
  split at h
  · rename_i m M hm hM
    split at h
    · cases h
    · rename_i pal hp
      split at h
      · injection h with h2
        exact ⟨m, M, pal, hm, hM, hp, h2.symm⟩
      · cases h
  · cases h

/-! ## Claim C5, the scale bounds -/

/-- C5, counterexample.  The builtins min and max do not ignore
missing entries: on the values nan then 5 the first element seeds the
loop, nan never loses a comparison, and the scale is built with nan as
both bounds, while the minimum of the values with missing entries
ignored is 5. -/
theorem color_mapper_nan_min_counterexample :
    make_color_mapper bokehLib [PyNum.nan, PyNum.num 5] "sequential" { ncolors := 3 }
      = Except.ok ⟨"lin", ["#fde0dd", "#fa9fb5", "#c51b8a"], PyNum.nan, PyNum.nan⟩ ∧
    minIgnoringNulls [PyNum.nan, PyNum.num 5] = some 5 ∧
    PyNum.nan ≠ PyNum.num 5 := by
  refine ⟨by decide, by decide, by decide⟩

/-- C5, amended.  On a nonempty list of numeric values free of
missing entries and with no caller override, the scale bounds are the
exact minimum and maximum of the values (each bound is one of the
values and bounds all of them); a caller override is always used
exactly as supplied.  A missing entry is not ignored: it propagates
through the builtin loops whenever it is the first element. -/
theorem color_mapper_bounds_spec :
    ∀ (lib : PaletteLib) (q0 : Int) (qs : List Int) (y_type : String) (fmt : Formatting)
      (mp : ColorMapper),
      make_color_mapper lib ((q0 :: qs).map PyNum.num) y_type fmt = Except.ok mp →
      (fmt.cbar_min = none →
        mp.low = PyNum.num (qs.foldl min q0) ∧
        qs.foldl min q0 ∈ q0 :: qs ∧ ∀ q ∈ q0 :: qs, qs.foldl min q0 ≤ q) ∧
      (fmt.cbar_max = none →
        mp.high = PyNum.num (qs.foldl max q0) ∧
        qs.foldl max q0 ∈ q0 :: qs ∧ ∀ q ∈ q0 :: qs, q ≤ qs.foldl max q0) ∧
      (∀ v, fmt.cbar_min = some v → mp.low = v) ∧
      (∀ v, fmt.cbar_max = some v → mp.high = v) := by
  intro lib q0 qs y_type fmt mp h
  obtain ⟨m, M, pal, hm, hM, hp, rfl⟩ := make_color_mapper_ok_inv h
  have hmv : m = PyNum.num (qs.foldl min q0) := by
    have hcomp : pyMin ((q0 :: qs).map PyNum.num) = some (PyNum.num (qs.foldl min q0)) := by
      simp only [List.map_cons, pyMin]
      rw [pyMinFold_num]
    rw [hcomp] at hm
    injection hm with hm2
    exact hm2.symm
  have hMv : M = PyNum.num (qs.foldl max q0) := by
    have hcomp : pyMax ((q0 :: qs).map PyNum.num) = some (PyNum.num (qs.foldl max q0)) := by
      simp only [List.map_cons, pyMax]
      rw [pyMaxFold_num]
    rw [hcomp] at hM
    injection hM with hM2
    exact hM2.symm
  refine ⟨?_, ?_, ?_, ?_⟩
  · intro hnone
    refine ⟨?_, foldl_min_mem q0 qs, foldl_min_le q0 qs⟩
    show (fmt.cbar_min.getD m) = PyNum.num (qs.foldl min q0)
    rw [hnone, Option.getD_none, hmv]
  · intro hnone
    refine ⟨?_, foldl_max_mem q0 qs, foldl_max_le q0 qs⟩
    show (fmt.cbar_max.getD M) = PyNum.num (qs.foldl max q0)
    rw [hnone, Option.getD_none, hMv]
  · intro v hv
    show (fmt.cbar_min.getD m) = v
    rw [hv, Option.getD_some]
  · intro v hv
    show (fmt.cbar_max.getD M) = v
    rw [hv, Option.getD_some]

/-- C5, witness for the amended statement at the values 5, 2, 9 with
no override. -/
theorem color_mapper_bounds_spec_witness :
    (⟨"lin", ["#fde0dd", "#fa9fb5", "#c51b8a"], PyNum.num 2, PyNum.num 9⟩ : ColorMapper).low
      = PyNum.num ([2, 9].foldl min 5) :=
  ((color_mapper_bounds_spec bokehLib 5 [2, 9] "sequential" { ncolors := 3 }
      ⟨"lin", ["#fde0dd", "#fa9fb5", "#c51b8a"], PyNum.num 2, PyNum.num 9⟩
      (by decide)).1 rfl).1

/-! ## Claim C7, the logarithmic domain -/

/-- C7, counterexample.  With mapping kind log and an explicit zero
lower bound the call succeeds and returns a scale whose low is zero:
no InvalidDomain failure exists on this path. -/
theorem log_mapper_zero_low_counterexample :
    make_color_mapper bokehLib [PyNum.num 1, PyNum.num 2] "sequential"
        { lin_or_log := "log", ncolors := 3, cbar_min := some (PyNum.num 0) }
      = Except.ok ⟨"log", ["#fde0dd", "#fa9fb5", "#c51b8a"], PyNum.num 0, PyNum.num 2⟩ := by
  decide

/-- C7, amended.  make_color_mapper never validates the domain: the
lin_or_log string only selects the mapper class, and with kind log
and a zero lower bound (computed or overridden) it returns a scale
with that zero bound instead of failing. -/
theorem log_mapper_no_validation_spec :
    ∀ (lib : PaletteLib) (vals : List PyNum) (y_type : String) (fmt : Formatting)
      (m M : PyNum) (pal : List String),
      pyMin vals = some m → pyMax vals = some M →
      palette_resolve lib y_type fmt.palette fmt.ncolors = some pal →
      fmt.lin_or_log = "log" → fmt.cbar_min = some (PyNum.num 0) →
      make_color_mapper lib vals y_type fmt
        = Except.ok ⟨"log", pal, PyNum.num 0, fmt.cbar_max.getD M⟩ := by
  intro lib vals y_type fmt m M pal hm hM hp hlog hmin
  unfold make_color_mapper
  rw [hm, hM]
  simp [hp, hlog, hmin]

/-- C7, witness for the amended statement at a concrete zero low
call. -/
theorem log_mapper_no_validation_spec_witness :
    make_color_mapper bokehLib [PyNum.num 1, PyNum.num 2] "sequential"
        { lin_or_log := "log", ncolors := 3, cbar_min := some (PyNum.num 0) }
      = Except.ok ⟨"log", ["#fde0dd", "#fa9fb5", "#c51b8a"], PyNum.num 0,
          (({ lin_or_log := "log", ncolors := 3, cbar_min := some (PyNum.num 0) } :
            Formatting)).cbar_max.getD (PyNum.num 2)⟩ :=
  log_mapper_no_validation_spec bokehLib [PyNum.num 1, PyNum.num 2] "sequential"
    { lin_or_log := "log", ncolors := 3, cbar_min := some (PyNum.num 0) }
    (PyNum.num 1) (PyNum.num 2) ["#fde0dd", "#fa9fb5", "#c51b8a"]
    (by decide) (by decide) (by decide) rfl rfl

/-! ## The palette table -/

/-- Replacing the final element preserves the length of a nonempty
list. -/
theorem setLast_length {l : List String} (c : String) (h : l ≠ []) :
    (setLast l c).length = l.length := by
  unfold setLast
  cases l with
  | nil => exact absurd rfl h
  | cons x xs =>
    rw [List.length_append, List.length_dropLast]
    simp

/-- Replacing the final element leaves everything before it alone. -/
theorem setLast_dropLast (l : List String) (c : String) :
    (setLast l c).dropLast = l.dropLast := by
  unfold setLast
  cases l with
  | nil => rfl
  | cons x xs => rw [List.dropLast_concat]

/-- After replacing the final element of a nonempty list, the final
element is the replacement. -/
theorem setLast_getLastD {l : List String} (c : String) (h : l ≠ []) :
    (setLast l c).getLastD "" = c := by
  unfold setLast
  cases l with
  | nil => exact absurd rfl h
  | cons x xs => rw [List.getLastD_concat]

/-! ## Claim C6, palette length and reversal -/

/-- C6, counterexample.  For the sequential family under the key
YlGnBu at three colors the stored palette is not the exact reversal of
the library palette: its final entry is the patched custom hex code
0a3959 in place of the darkest library color. -/
theorem palette_reversal_counterexample :
    PALETTES bokehLib "sequential" (PKey.label "YlGnBu") 3
        = some ["#edf8b1", "#7fcdbb", "#0a3959"] ∧
    get_palette_colors bokehLib "YlGnBu" 3 = some ["#edf8b1", "#7fcdbb", "#2c7fb8"] ∧
    (["#edf8b1", "#7fcdbb", "#0a3959"] : List String) ≠ ["#edf8b1", "#7fcdbb", "#2c7fb8"] := by
  refine ⟨by decide, by decide, by decide⟩

/-- C6, amended.  For every family key resolving to a palette name
and every color count within the supported range of the family, when
the library palette of that name and size has that size, the stored
palette has exactly that length; it is the exact reversal of the
library palette for every key except the second ranked sequential
palette (the rank key 2 and the name key YlGnBu, which share one list
object), where the reversal has its final entry replaced by the
custom hex code 0a3959 and all earlier entries unchanged. -/
theorem palette_reversal_spec :
    ∀ (lib : PaletteLib) (ptype : String) (key : PKey) (n : Nat) (label : String)
      (libpal : List String) (m : Nat),
      keyLabel ptype key = some label → max_n ptype = some m →
      lib label n = some libpal → libpal.length = n → 3 ≤ n → n ≤ m →
      ∃ pal, PALETTES lib ptype key n = some pal ∧ pal.length = n ∧
        (¬(ptype = "sequential" ∧ (key = PKey.rank 2 ∨ key = PKey.label "YlGnBu")) →
          pal = libpal.reverse) ∧
        (ptype = "sequential" ∧ (key = PKey.rank 2 ∨ key = PKey.label "YlGnBu") →
          pal = setLast libpal.reverse "#0a3959" ∧
          pal.dropLast = libpal.reverse.dropLast ∧ pal.getLastD "" = "#0a3959") := by
  intro lib ptype key n label libpal m hkl hmax hlib hlen h3 hm
  have hrevne : libpal.reverse ≠ [] := by
    intro hnil
    have hempty : libpal = [] := by simpa using hnil
    rw [hempty] at hlen
    simp at hlen
    omega
  have hpre : PALETTES_pre lib ptype key n = some libpal.reverse := by
    unfold PALETTES_pre
    rw [hkl, hmax]
    show (if 3 ≤ n ∧ n ≤ m then get_palette_colors lib label n else none)
      = some libpal.reverse
    rw [if_pos ⟨h3, hm⟩]
    unfold get_palette_colors
    rw [hlib]
    rfl
  by_cases hexc : ptype = "sequential" ∧ (key = PKey.rank 2 ∨ key = PKey.label "YlGnBu")
  · refine ⟨setLast libpal.reverse "#0a3959", ?_, ?_, fun hc => absurd hexc hc, ?_⟩
    · unfold PALETTES
      rw [if_pos hexc, hpre]
      rfl
    · rw [setLast_length _ hrevne, List.length_reverse, hlen]
    · intro hc
      exact ⟨rfl, setLast_dropLast _ _, setLast_getLastD _ hrevne⟩
  · refine ⟨libpal.reverse, ?_, ?_, fun hc => rfl, fun hc => absurd hc hexc⟩
    · unfold PALETTES
      rw [if_neg hexc, hpre]
    · rw [List.length_reverse, hlen]

/-- C6, witness for the amended statement at the top ranked
sequential palette with three colors. -/
theorem palette_reversal_spec_witness :
    ∃ pal, PALETTES bokehLib "sequential" (PKey.rank 1) 3 = some pal ∧ pal.length = 3 ∧
      (¬("sequential" = "sequential" ∧
          (PKey.rank 1 = PKey.rank 2 ∨ PKey.rank 1 = PKey.label "YlGnBu")) →
        pal = (["#c51b8a", "#fa9fb5", "#fde0dd"] : List String).reverse) ∧
      (("sequential" = "sequential" ∧
          (PKey.rank 1 = PKey.rank 2 ∨ PKey.rank 1 = PKey.label "YlGnBu")) →
        pal = setLast (["#c51b8a", "#fa9fb5", "#fde0dd"] : List String).reverse "#0a3959" ∧
        pal.dropLast = (["#c51b8a", "#fa9fb5", "#fde0dd"] : List String).reverse.dropLast ∧
        pal.getLastD "" = "#0a3959") :=
  palette_reversal_spec bokehLib "sequential" (PKey.rank 1) 3 "RdPu"
    ["#c51b8a", "#fa9fb5", "#fde0dd"] 9
    (by decide) (by decide) (by decide) (by decide) (by decide) (by decide)

/-! ## Claim C9, the custom color override -/

/-- C9.  For every color count from three to nine, the stored
sequential palette under the rank key 2 and under the name key YlGnBu
(the same underlying list object) has its final entry overridden to
the custom hex code 0a3959, and every other family and key pair of
the table is left exactly as built by the reversing loop. -/
theorem palette_locus_override_spec :
    (∀ (lib : PaletteLib) (n : Nat) (libpal : List String),
       lib "YlGnBu" n = some libpal → libpal ≠ [] → 3 ≤ n → n ≤ 9 →
       PALETTES lib "sequential" (PKey.rank 2) n
           = some (setLast libpal.reverse "#0a3959") ∧
       PALETTES lib "sequential" (PKey.label "YlGnBu") n
           = some (setLast libpal.reverse "#0a3959") ∧
       (setLast libpal.reverse "#0a3959").getLastD "" = "#0a3959") ∧
    (∀ (lib : PaletteLib) (ptype : String) (key : PKey) (n : Nat),
       ¬(ptype = "sequential" ∧ (key = PKey.rank 2 ∨ key = PKey.label "YlGnBu")) →
       PALETTES lib ptype key n = PALETTES_pre lib ptype key n) := by
  constructor
  · intro lib n libpal hlib hne h3 h9
    have hk2 : keyLabel "sequential" (PKey.rank 2) = some "YlGnBu" := by decide
    have hkL : keyLabel "sequential" (PKey.label "YlGnBu") = some "YlGnBu" := by decide
    have hmax : max_n "sequential" = some 9 := rfl
    have hpre : ∀ key, keyLabel "sequential" key = some "YlGnBu" →
        PALETTES_pre lib "sequential" key n = some libpal.reverse := by
      intro key hkey
      unfold PALETTES_pre
      rw [hkey, hmax]
      show (if 3 ≤ n ∧ n ≤ 9 then get_palette_colors lib "YlGnBu" n else none)
        = some libpal.reverse
      rw [if_pos ⟨h3, h9⟩]
      unfold get_palette_colors
      rw [hlib]
      rfl
    have hrevne : libpal.reverse ≠ [] := by
      intro hnil
      exact hne (by simpa using hnil)
    refine ⟨?_, ?_, setLast_getLastD _ hrevne⟩
    · unfold PALETTES
      rw [if_pos ⟨rfl, Or.inl rfl⟩, hpre _ hk2]
      rfl
    · unfold PALETTES
      rw [if_pos ⟨rfl, Or.inr rfl⟩, hpre _ hkL]
      rfl
  · intro lib ptype key n hne
    unfold PALETTES
    rw [if_neg hne]

/-- C9, witness at the three color YlGnBu palette of the concrete
library. -/
theorem palette_locus_override_spec_witness :
    PALETTES bokehLib "sequential" (PKey.rank 2) 3
        = some (setLast (["#2c7fb8", "#7fcdbb", "#edf8b1"] : List String).reverse "#0a3959") :=
  (palette_locus_override_spec.1 bokehLib 3 ["#2c7fb8", "#7fcdbb", "#edf8b1"]
    (by decide) (by decide) (by decide) (by decide)).1

end Geoviz
